import Mathlib

/-!
Verification of the ray-casting renderer in `src/main.rs`.

The grid is the Rust value `world : [[i32; 12]; 11]`, indexed `world[y][x]`.
Floating-point (`f32`) arithmetic is modelled by exact ordered-field
arithmetic: the ray marcher is defined over any linear ordered field with a
floor, instantiated at `ℚ` for computation and at `ℝ` for the trigonometric
statements.  The Rust `loop` of `cast_ray` has no bound in the source; the
embedding adds an explicit `fuel` argument (returning `none` when the fuel is
exhausted) purely so that the function is total — theorems below show the
loop in fact terminates, so the fuel is immaterial.
-/

/-- The world grid type of `main.rs`: `[[i32; 12]; 11]`, accessed `world[y][x]`. -/
abbrev World := Fin 11 → Fin 12 → ℤ

/-- `check_collision` (main.rs line 8-10): in-bounds test followed by a
non-zero cell test, with Rust's short-circuit `&&`. -/
def check_collision (world : World) (x y : ℤ) : Bool :=
  if hx : 0 ≤ x ∧ x < 12 then
    if hy : 0 ≤ y ∧ y < 11 then
      world ⟨y.toNat, by omega⟩ ⟨x.toNat, by omega⟩ != 0
    else false
  else false

/-- The termination condition of the `loop` in `cast_ray` (main.rs line 23),
at accumulated distance `d`:
`x < 0.0 || x >= 12 || y < 0.0 || y >= 11 || check_collision(world, x.floor(), y.floor())`
with `x = px + d*cos`, `y = py + d*sin`. -/
def hitCond {α : Type} [LinearOrderedField α] [FloorRing α]
    (world : World) (px py c s d : α) : Prop :=
  px + d * c < 0 ∨ 12 ≤ px + d * c ∨ py + d * s < 0 ∨ 11 ≤ py + d * s ∨
    check_collision world ⌊px + d * c⌋ ⌊py + d * s⌋ = true

instance {α : Type} [LinearOrderedField α] [FloorRing α]
    (world : World) (px py c s d : α) : Decidable (hitCond world px py c s d) :=
  inferInstanceAs (Decidable (_ ∨ _ ∨ _ ∨ _ ∨ _))

/-- The `loop` body of `cast_ray` (main.rs lines 18-26).  `k` counts the
increments already performed, so the distance tested in this iteration is
`(k+1) * 0.01`.  `fuel` makes the recursion structural; `none` means the
fuel ran out before the loop returned. -/
def castRayAux {α : Type} [LinearOrderedField α] [FloorRing α]
    (world : World) (px py c s : α) : ℕ → ℕ → Option (α × α × α)
  | 0, _ => none
  | fuel + 1, k =>
    let d : α := ((k : α) + 1) / 100
    if hitCond world px py c s d then
      some (px + d * c, py + d * s, d)
    else
      castRayAux world px py c s fuel (k + 1)

/-- `cast_ray` (main.rs lines 13-27), with the direction cosine `c` and sine
`s` passed as values (`cast_ray` computes them as `angle.cos()`,
`angle.sin()` and uses them only through these values). -/
def cast_ray {α : Type} [LinearOrderedField α] [FloorRing α]
    (world : World) (px py c s : α) (fuel : ℕ) : Option (α × α × α) :=
  castRayAux world px py c s fuel 0

/-- `cast_ray` applied to an actual angle, as called in `on_draw`:
direction `(angle.cos(), angle.sin())`. -/
noncomputable def cast_ray_at_angle (world : World) (px py a : ℝ) (fuel : ℕ) :
    Option (ℝ × ℝ × ℝ) :=
  cast_ray world px py (Real.cos a) (Real.sin a) fuel

/-- The world literal of `main` (main.rs lines 156-169). -/
def mainWorld : World :=
  ![![1, 1, 1, 1, 1, 1, 1, 1, 1, 1, 1, 1],
    ![1, 0, 0, 0, 1, 0, 0, 0, 0, 0, 0, 1],
    ![1, 0, 0, 0, 1, 0, 1, 1, 1, 1, 0, 1],
    ![1, 0, 0, 0, 0, 0, 1, 0, 0, 1, 0, 1],
    ![1, 0, 0, 0, 0, 0, 1, 0, 1, 1, 0, 1],
    ![1, 0, 0, 0, 0, 0, 0, 0, 0, 0, 0, 1],
    ![1, 0, 1, 1, 1, 0, 1, 1, 1, 1, 0, 1],
    ![1, 0, 1, 0, 0, 0, 1, 0, 0, 1, 0, 1],
    ![1, 0, 1, 0, 1, 1, 1, 0, 1, 1, 0, 1],
    ![1, 0, 0, 0, 0, 0, 0, 0, 0, 0, 0, 1],
    ![1, 1, 1, 1, 1, 1, 1, 1, 1, 1, 1, 1]]

/-- A grid with no walls at all, used to exercise the no-collision path of
`cast_ray`. -/
def openWorld : World := fun _ _ => 0

/-- Fully evaluable model of the `cast_ray` loop for inputs whose position
and direction are integer multiples of `1/100`: positions are scaled by
`10000` and the tested distance index is returned directly.  Equivalent to
`castRayAux` by `castRayAux_int_scaled` below; used only to evaluate concrete
runs by `decide` (rational/real arithmetic does not reduce in the kernel). -/
def castRayAuxZ (world : World) (P Q C S : ℤ) : ℕ → ℕ → Option (ℤ × ℤ × ℕ)
  | 0, _ => none
  | fuel + 1, k =>
    let xN : ℤ := 100 * P + (k + 1) * C
    let yN : ℤ := 100 * Q + (k + 1) * S
    if xN < 0 ∨ 120000 ≤ xN ∨ yN < 0 ∨ 110000 ≤ yN ∨
        check_collision world (xN / 10000) (yN / 10000) = true then
      some (xN, yN, k + 1)
    else
      castRayAuxZ world P Q C S fuel (k + 1)

/-- The fisheye correction of `on_draw` (main.rs line 93):
`corrected_distance = distance * (pov - ray_angle).cos()`. -/
noncomputable def corrected_distance (pov ray_angle distance : ℝ) : ℝ :=
  distance * Real.cos (pov - ray_angle)

/-- `wall_height` (main.rs line 96) with `screen_height = 960.0`:
`(screen_height / corrected_distance) * 1.5`.  Note: the source divides by
the corrected distance directly, with no clamping. -/
noncomputable def wall_height (corrected : ℝ) : ℝ :=
  960 / corrected * 1.5

/-- `wall_top` (main.rs line 97): `screen_height / 2 - wall_height / 2`. -/
noncomputable def wall_top (corrected : ℝ) : ℝ :=
  960 / 2 - wall_height corrected / 2

/-- `wall_bottom` (main.rs line 98): `screen_height / 2 + wall_height / 2`. -/
noncomputable def wall_bottom (corrected : ℝ) : ℝ :=
  960 / 2 + wall_height corrected / 2

/-- The distance component of a `cast_ray` result, as destructured by
`let (_, _, distance) = cast_ray(...)` in `on_draw` (main.rs line 90).
`0` is returned only when the modelling fuel runs out. -/
noncomputable def ray_distance (world : World) (px py a : ℝ) (fuel : ℕ) : ℝ :=
  ((cast_ray_at_angle world px py a fuel).map (fun r => r.2.2)).getD 0

/-- One iteration of the wall-rendering loop of `on_draw`
(main.rs lines 88-110), with the constants of the source
(`screen_width = 1280`, `screen_height = 960`, `num_rays = 320`): the
screen rectangle `((x1, top), (x2, bottom))` drawn for column `i`. -/
noncomputable def column_rect (world : World) (px py pov fov : ℝ) (fuel i : ℕ) :
    (ℝ × ℝ) × (ℝ × ℝ) :=
  let half_fov := fov / 2
  let ray_angle := pov - half_fov + (fov / 320) * i
  let distance := ray_distance world px py ray_angle fuel
  let cd := distance * Real.cos (pov - ray_angle)
  let wh := 960 / cd * 1.5
  let top := 960 / 2 - wh / 2
  let bottom := 960 / 2 + wh / 2
  let slice_width := 1280 / 320
  ((i * slice_width, top), ((i + 1) * slice_width, bottom))

/-- Modelled from the spec's words for the Scene Composer (claim C8), to be
compared with `column_rect`: ray angle `pov - fov/2 + (fov/num_rays) * i`,
fisheye correction, projection, and a slice spanning screen-x
`[i * slice_width, (i+1) * slice_width)` with
`slice_width = screen_width / num_rays`. -/
noncomputable def column_rect_spec (world : World) (px py pov fov : ℝ)
    (fuel i : ℕ) : (ℝ × ℝ) × (ℝ × ℝ) :=
  let a := pov - fov / 2 + (fov / 320) * i
  let cd := corrected_distance pov a (ray_distance world px py a fuel)
  ((i * (1280 / 320), wall_top cd), ((i + 1) * (1280 / 320), wall_bottom cd))

/-- The `pov` update for a held left key (main.rs line 65):
`pov -= 5.0.to_radians()`, i.e. `pov - 5 * (π / 180)`. -/
noncomputable def rotate_left (pov : ℝ) : ℝ := pov - 5 * (Real.pi / 180)

/-- The `pov` update for a held right key (main.rs line 68):
`pov += 5.0.to_radians()`, i.e. `pov + 5 * (π / 180)`. -/
noncomputable def rotate_right (pov : ℝ) : ℝ := pov + 5 * (Real.pi / 180)

/-- The state owned by the window handler (main.rs lines 30-37).  Key codes
are modelled as natural numbers; the `HashSet` of pressed keys as a
`Finset`. -/
structure MyWindowHandler where
  world : World
  pov : ℝ
  fov : ℝ
  player_x : ℝ
  player_y : ℝ
  keys_pressed : Finset ℕ

/-- `on_key_down` (main.rs lines 40-49): insert the key, if any, into
`keys_pressed`. -/
def on_key_down (s : MyWindowHandler) (key_code : Option ℕ) : MyWindowHandler :=
  match key_code with
  | some key => { s with keys_pressed := insert key s.keys_pressed }
  | none => s

/-- `on_key_up` (main.rs lines 51-60): remove the key, if any, from
`keys_pressed`. -/
def on_key_up (s : MyWindowHandler) (key_code : Option ℕ) : MyWindowHandler :=
  match key_code with
  | some key => s.keys_pressed.erase key |> fun ks => { s with keys_pressed := ks }
  | none => s

/-- The grid's outer border consists entirely of walls. -/
def borderWalls (world : World) : Prop :=
  ∀ (i : Fin 12) (j : Fin 11),
    (i.val = 0 ∨ i.val = 11 ∨ j.val = 0 ∨ j.val = 10) → world j i ≠ 0

instance (world : World) : Decidable (borderWalls world) :=
  inferInstanceAs (Decidable (∀ _ _, _ → _))

/-- `(px, py)` lies strictly inside an open (non-wall) cell of the grid. -/
def insideOpenCell {α : Type} [LinearOrderedField α] (world : World)
    (px py : α) : Prop :=
  ∃ (i : Fin 12) (j : Fin 11), world j i = 0 ∧
    (i.val : α) < px ∧ px < i.val + 1 ∧ (j.val : α) < py ∧ py < j.val + 1

example : check_collision mainWorld 0 0 = true := by decide
example : check_collision mainWorld 3 3 = false := by decide
example : check_collision mainWorld 12 3 = false := by decide
example : castRayAuxZ mainWorld 150 150 (-100) 0 60 0 =
    some (9900, 15000, 51) := by decide
example : castRayAuxZ openWorld 1150 50 100 0 60 0 =
    some (120000, 5000, 50) := by decide
example : borderWalls mainWorld := by decide

/-! ### Helper lemmas about the marcher -/

theorem floor_cast_div_10000 {α : Type} [LinearOrderedField α] [FloorRing α]
    (a : ℤ) : ⌊(a : α) / 10000⌋ = a / 10000 := by
  rw [show ((a : α) / 10000) = (((a : ℚ) / ((10000 : ℕ) : ℚ) : ℚ) : α) by
    push_cast; norm_num]
  rw [Rat.floor_cast, Rat.floor_intCast_div_natCast]
  norm_num

/-- The marcher over any ordered field agrees with the integer-scaled model
when all inputs are integer multiples of `1/100`. -/
theorem castRayAux_int_scaled {α : Type} [LinearOrderedField α] [FloorRing α]
    (world : World) (P Q C S : ℤ) : ∀ (fuel k : ℕ),
    castRayAux world ((P : α) / 100) ((Q : α) / 100) ((C : α) / 100)
        ((S : α) / 100) fuel k =
      (castRayAuxZ world P Q C S fuel k).map
        (fun r => ((r.1 : α) / 10000, (r.2.1 : α) / 10000, (r.2.2 : α) / 100))
  | 0, _ => rfl
  | fuel + 1, k => by
    have h10000 : (0 : α) < 10000 := by norm_num
    simp only [castRayAux, castRayAuxZ, hitCond]
    have hx : (P : α) / 100 + ((k : α) + 1) / 100 * ((C : α) / 100) =
        ((100 * P + (k + 1) * C : ℤ) : α) / 10000 := by push_cast; ring
    have hy : (Q : α) / 100 + ((k : α) + 1) / 100 * ((S : α) / 100) =
        ((100 * Q + (k + 1) * S : ℤ) : α) / 10000 := by push_cast; ring
    have hd : ((k : α) + 1) / 100 = (((k + 1 : ℕ) : α)) / 100 := by push_cast; ring
    have h1 : ∀ a : ℤ, ((a : α) / 10000 < 0) ↔ (a < 0) := fun a => by
      rw [div_lt_iff₀ h10000, zero_mul]; exact_mod_cast Iff.rfl
    have h2 : ∀ a : ℤ, ((12 : α) ≤ (a : α) / 10000) ↔ (120000 ≤ a) := fun a => by
      rw [le_div_iff₀ h10000, show (12 : α) * 10000 = ((120000 : ℤ) : α) by norm_num]
      exact_mod_cast Iff.rfl
    have h3 : ∀ a : ℤ, ((11 : α) ≤ (a : α) / 10000) ↔ (110000 ≤ a) := fun a => by
      rw [le_div_iff₀ h10000, show (11 : α) * 10000 = ((110000 : ℤ) : α) by norm_num]
      exact_mod_cast Iff.rfl
    simp only [hx, hy]
    simp only [hd, floor_cast_div_10000, h1, h2, h3]
    by_cases hc : (100 * P + (k + 1) * C : ℤ) < 0 ∨
        120000 ≤ (100 * P + (k + 1) * C : ℤ) ∨ (100 * Q + (k + 1) * S : ℤ) < 0 ∨
        110000 ≤ (100 * Q + (k + 1) * S : ℤ) ∨
        check_collision world ((100 * P + (k + 1) * C) / 10000)
          ((100 * Q + (k + 1) * S) / 10000) = true
    · rw [if_pos hc, if_pos hc, Option.map_some']
    · rw [if_neg hc, if_neg hc]
      exact castRayAux_int_scaled world P Q C S fuel (k + 1)

/-- Any `some` result of the marching loop is the first step at which the
termination condition holds, and carries exactly the stepped point and the
accumulated distance. -/
theorem castRayAux_spec {α : Type} [LinearOrderedField α] [FloorRing α]
    (world : World) (px py c s : α) : ∀ (fuel k : ℕ) (x y d : α),
    castRayAux world px py c s fuel k = some (x, y, d) →
    ∃ m : ℕ, k ≤ m ∧ m < k + fuel ∧ d = ((m : α) + 1) / 100 ∧
      x = px + d * c ∧ y = py + d * s ∧ hitCond world px py c s d ∧
      ∀ j : ℕ, k ≤ j → j < m → ¬ hitCond world px py c s (((j : α) + 1) / 100)
  | 0, k, x, y, d, h => by simp [castRayAux] at h
  | fuel + 1, k, x, y, d, h => by
    simp only [castRayAux] at h
    by_cases hc : hitCond world px py c s (((k : α) + 1) / 100)
    · rw [if_pos hc] at h
      simp only [Option.some.injEq, Prod.mk.injEq] at h
      obtain ⟨hx, hy, hd⟩ := h
      exact ⟨k, le_refl k, by omega, hd.symm, by rw [← hx, hd],
        by rw [← hy, hd], by rw [← hd]; exact hc, fun j hj1 hj2 => by omega⟩
    · rw [if_neg hc] at h
      obtain ⟨m, hkm, hmf, hd, hx, hy, hcond, hmin⟩ :=
        castRayAux_spec world px py c s fuel (k + 1) x y d h
      refine ⟨m, by omega, by omega, hd, hx, hy, hcond, fun j hj1 hj2 => ?_⟩
      rcases Nat.eq_or_lt_of_le hj1 with rfl | hj
      · exact hc
      · exact hmin j hj hj2

/-- If the termination condition holds at some step within the fuel, the
marching loop returns a result. -/
theorem castRayAux_isSome {α : Type} [LinearOrderedField α] [FloorRing α]
    (world : World) (px py c s : α) : ∀ (fuel k : ℕ),
    (∃ m : ℕ, k ≤ m ∧ m < k + fuel ∧ hitCond world px py c s (((m : α) + 1) / 100)) →
    ∃ x y d : α, castRayAux world px py c s fuel k = some (x, y, d)
  | 0, k, h => absurd h (by rintro ⟨m, h1, h2, _⟩; omega)
  | fuel + 1, k, h => by
    obtain ⟨m, h1, h2, hm⟩ := h
    simp only [castRayAux]
    by_cases hc : hitCond world px py c s (((k : α) + 1) / 100)
    · rw [if_pos hc]; exact ⟨_, _, _, rfl⟩
    · rw [if_neg hc]
      apply castRayAux_isSome world px py c s fuel (k + 1)
      rcases Nat.eq_or_lt_of_le h1 with rfl | hk
      · exact absurd hm hc
      · exact ⟨m, hk, by omega, hm⟩

/-- If the direction is a unit vector and the origin is inside the grid's
bounding box, the termination condition holds at any distance whose square
exceeds the squared diagonal `12² + 11² = 265`. -/
theorem hitCond_of_sq_gt {α : Type} [LinearOrderedField α] [FloorRing α]
    (world : World) (px py c s d : α) (hcs : c ^ 2 + s ^ 2 = 1)
    (hpx0 : 0 < px) (hpx1 : px < 12) (hpy0 : 0 < py) (hpy1 : py < 11)
    (hd : 265 < d ^ 2) : hitCond world px py c s d := by
  by_contra h
  unfold hitCond at h
  push_neg at h
  obtain ⟨h1, h2, h3, h4, -⟩ := h
  have hdc1 : d * c < 12 := by linarith
  have hdc2 : -12 < d * c := by linarith
  have hds1 : d * s < 11 := by linarith
  have hds2 : -11 < d * s := by linarith
  have h144 : (d * c) ^ 2 < 144 := by nlinarith
  have h121 : (d * s) ^ 2 < 121 := by nlinarith
  have hsum : (d * c) ^ 2 + (d * s) ^ 2 = d ^ 2 := by
    have hexp : (d * c) ^ 2 + (d * s) ^ 2 = d ^ 2 * (c ^ 2 + s ^ 2) := by ring
    rw [hexp, hcs, mul_one]
  linarith

/-- For a unit direction and arbitrary origin, the termination condition
holds at any distance beyond `23 + |px| + |py|`: such a point cannot lie in
the bounding box. -/
theorem hitCond_of_far {α : Type} [LinearOrderedField α] [FloorRing α]
    (world : World) (px py c s d : α) (hcs : c ^ 2 + s ^ 2 = 1)
    (hd : 23 + |px| + |py| < d) : hitCond world px py c s d := by
  by_contra h
  unfold hitCond at h
  push_neg at h
  obtain ⟨h1, h2, h3, h4, -⟩ := h
  have hpx1 : -|px| ≤ px := neg_abs_le px
  have hpx2 : px ≤ |px| := le_abs_self px
  have hpy1 : -|py| ≤ py := neg_abs_le py
  have hpy2 : py ≤ |py| := le_abs_self py
  have hax : (0 : α) ≤ |px| := abs_nonneg px
  have hay : (0 : α) ≤ |py| := abs_nonneg py
  have hdc1 : d * c < 12 + |px| := by linarith
  have hdc2 : -(12 + |px|) < d * c := by linarith
  have hds1 : d * s < 11 + |py| := by linarith
  have hds2 : -(11 + |py|) < d * s := by linarith
  have h1' : (d * c) ^ 2 < (12 + |px|) ^ 2 := by
    nlinarith [mul_pos (show (0 : α) < 12 + |px| - d * c by linarith)
      (show (0 : α) < 12 + |px| + d * c by linarith)]
  have h2' : (d * s) ^ 2 < (11 + |py|) ^ 2 := by
    nlinarith [mul_pos (show (0 : α) < 11 + |py| - d * s by linarith)
      (show (0 : α) < 11 + |py| + d * s by linarith)]
  have hsum : (d * c) ^ 2 + (d * s) ^ 2 = d ^ 2 := by
    have hexp : (d * c) ^ 2 + (d * s) ^ 2 = d ^ 2 * (c ^ 2 + s ^ 2) := by ring
    rw [hexp, hcs, mul_one]
  have h23 : (0 : α) ≤ 23 + |px| + |py| := by linarith
  have hq : (23 + |px| + |py|) ^ 2 < d ^ 2 := by
    have h' := mul_self_lt_mul_self h23 hd
    calc (23 + |px| + |py|) ^ 2 = (23 + |px| + |py|) * (23 + |px| + |py|) := sq (23 + |px| + |py|) ▸ by ring
    _ < d * d := h'
    _ = d ^ 2 := by ring
  have hexpand : (23 + |px| + |py|) ^ 2 =
      (12 + |px|) ^ 2 + (11 + |py|) ^ 2 + 2 * ((12 + |px|) * (11 + |py|)) := by
    ring
  have hm : (0 : α) ≤ (12 + |px|) * (11 + |py|) := by positivity
  linarith

/-- A unit-direction ray started inside the bounding box returns within
1628 increments, with the accumulated distance of the hit step; 1640 units
of fuel are ample. -/
theorem cast_ray_hits_inBox {α : Type} [LinearOrderedField α] [FloorRing α]
    (world : World) (px py c s : α) (hcs : c ^ 2 + s ^ 2 = 1)
    (hpx0 : 0 < px) (hpx1 : px < 12) (hpy0 : 0 < py) (hpy1 : py < 11) :
    ∃ (x y d : α) (m : ℕ), cast_ray world px py c s 1640 = some (x, y, d) ∧
      d = ((m : α) + 1) / 100 ∧ m ≤ 1627 := by
  have hcond : hitCond world px py c s ((((1627 : ℕ) : α) + 1) / 100) := by
    apply hitCond_of_sq_gt world px py c s _ hcs hpx0 hpx1 hpy0 hpy1
    have : (((1627 : ℕ) : α) + 1) / 100 = 1628 / 100 := by norm_num
    rw [this]
    norm_num
  obtain ⟨x, y, d, hsome⟩ := castRayAux_isSome world px py c s 1640 0
    ⟨1627, by omega, by omega, hcond⟩
  obtain ⟨m, -, -, hd, -, -, -, hmin⟩ :=
    castRayAux_spec world px py c s 1640 0 x y d hsome
  refine ⟨x, y, d, m, hsome, hd, ?_⟩
  by_contra hm
  push_neg at hm
  exact hmin 1627 (by omega) hm hcond

/-- The `cast_ray` loop always terminates for a unit direction: the
bounding-box test fires once the distance exceeds `23 + |px| + |py|`. -/
theorem cast_ray_terminates {α : Type} [LinearOrderedField α] [FloorRing α]
    [Archimedean α] (world : World) (px py c s : α) (hcs : c ^ 2 + s ^ 2 = 1) :
    ∃ (fuel : ℕ) (x y d : α), cast_ray world px py c s fuel = some (x, y, d) := by
  obtain ⟨n, hn⟩ := exists_nat_ge ((23 + |px| + |py|) * 100)
  have hcond : hitCond world px py c s (((n : α) + 1) / 100) := by
    apply hitCond_of_far world px py c s _ hcs
    rw [lt_div_iff₀ (by norm_num : (0 : α) < 100)]
    calc (23 + |px| + |py|) * 100 ≤ (n : α) := hn
    _ < (n : α) + 1 := by linarith
  obtain ⟨x, y, d, h⟩ := castRayAux_isSome world px py c s (n + 1) 0
    ⟨n, by omega, by omega, hcond⟩
  exact ⟨n + 1, x, y, d, h⟩

theorem rotate_right_iterate (n : ℕ) (pov : ℝ) :
    rotate_right^[n] pov = pov + n * (5 * (Real.pi / 180)) := by
  induction n with
  | zero => simp
  | succ n ih =>
    rw [Function.iterate_succ_apply', ih, rotate_right]
    push_cast
    ring

/-- Concrete run used for claim C1's witness: from `(1.5, 1.5)` at angle `π`
(direction `(-1, 0)`), the marcher hits the west border wall of `mainWorld`
after 51 steps, at `(0.99, 1.5)` with distance `0.51`. -/
theorem cast_ray_pi_run :
    cast_ray_at_angle mainWorld (3 / 2) (3 / 2) Real.pi 60 =
      some (99 / 100, 3 / 2, 51 / 100) := by
  unfold cast_ray_at_angle cast_ray
  rw [Real.cos_pi, Real.sin_pi]
  have key := castRayAux_int_scaled (α := ℝ) mainWorld 150 150 (-100) 0 60 0
  rw [show castRayAuxZ mainWorld 150 150 (-100) 0 60 0 = some (9900, 15000, 51)
    by decide] at key
  simp only [Option.map_some'] at key
  norm_num at key
  exact key

/-! ### Claims -/

/-- C1: every ray cast by the fixed-step marcher `cast_ray` from `(px, py)`
at angle `a` advances in fixed increments of `0.01` grid units, terminates
at the first step whose floor-truncated cell is a wall or whose position
lies outside the grid's bounding box, and returns exactly the terminating
point `(px + d·cos a, py + d·sin a)` with the accumulated distance `d`. -/
theorem cast_ray_fixed_step_first_hit (world : World) (px py a : ℝ) :
    (∃ (fuel : ℕ) (x y d : ℝ),
      cast_ray_at_angle world px py a fuel = some (x, y, d)) ∧
    ∀ (fuel : ℕ) (x y d : ℝ),
      cast_ray_at_angle world px py a fuel = some (x, y, d) →
      ∃ m : ℕ, d = ((m : ℝ) + 1) / 100 ∧ x = px + d * Real.cos a ∧
        y = py + d * Real.sin a ∧
        hitCond world px py (Real.cos a) (Real.sin a) d ∧
        ∀ j : ℕ, j < m →
          ¬ hitCond world px py (Real.cos a) (Real.sin a) (((j : ℝ) + 1) / 100) := by
  constructor
  · exact cast_ray_terminates world px py (Real.cos a) (Real.sin a)
      (Real.cos_sq_add_sin_sq a)
  · intro fuel x y d h
    obtain ⟨m, -, -, hd, hx, hy, hcond, hmin⟩ :=
      castRayAux_spec world px py (Real.cos a) (Real.sin a) fuel 0 x y d h
    exact ⟨m, hd, hx, hy, hcond, fun j hj => hmin j (Nat.zero_le j) hj⟩

/-- Witness for C1 at the concrete ray of `cast_ray_pi_run`. -/
theorem cast_ray_fixed_step_first_hit_witness :
    cast_ray_at_angle mainWorld (3 / 2) (3 / 2) Real.pi 60 =
        some (99 / 100, 3 / 2, 51 / 100) ∧
      ∃ m : ℕ, (51 / 100 : ℝ) = ((m : ℝ) + 1) / 100 ∧
        (99 / 100 : ℝ) = 3 / 2 + 51 / 100 * Real.cos Real.pi ∧
        (3 / 2 : ℝ) = 3 / 2 + 51 / 100 * Real.sin Real.pi ∧
        hitCond mainWorld (3 / 2 : ℝ) (3 / 2) (Real.cos Real.pi)
          (Real.sin Real.pi) (51 / 100) ∧
        ∀ j : ℕ, j < m → ¬ hitCond mainWorld (3 / 2 : ℝ) (3 / 2)
          (Real.cos Real.pi) (Real.sin Real.pi) (((j : ℝ) + 1) / 100) :=
  ⟨cast_ray_pi_run,
    (cast_ray_fixed_step_first_hit mainWorld (3 / 2) (3 / 2) Real.pi).2
      60 (99 / 100) (3 / 2) (51 / 100) cast_ray_pi_run⟩

/-- C2: a ray cast from a point strictly inside an open cell of a grid whose
outer border is all walls terminates with a (finite) distance strictly less
than the grid's diagonal `√(12² + 11²)` plus one step `0.01`. -/
theorem cast_ray_distance_lt_diagonal (world : World) (px py a : ℝ)
    (_hborder : borderWalls world) (hin : insideOpenCell world px py) :
    ∃ x y d : ℝ, cast_ray_at_angle world px py a 1640 = some (x, y, d) ∧
      d < Real.sqrt (12 ^ 2 + 11 ^ 2) + 1 / 100 := by
  obtain ⟨i, j, -, hi1, hi2, hj1, hj2⟩ := hin
  have hi11 : (i.val : ℝ) ≤ 11 := by exact_mod_cast Nat.lt_succ_iff.mp i.isLt
  have hj10 : (j.val : ℝ) ≤ 10 := by exact_mod_cast Nat.lt_succ_iff.mp j.isLt
  have hpx0 : (0 : ℝ) < px := lt_of_le_of_lt (Nat.cast_nonneg _) hi1
  have hpx1 : px < 12 := by linarith
  have hpy0 : (0 : ℝ) < py := lt_of_le_of_lt (Nat.cast_nonneg _) hj1
  have hpy1 : py < 11 := by linarith
  obtain ⟨x, y, d, m, hsome, hd, hm⟩ := cast_ray_hits_inBox world px py
    (Real.cos a) (Real.sin a) (Real.cos_sq_add_sin_sq a) hpx0 hpx1 hpy0 hpy1
  refine ⟨x, y, d, hsome, ?_⟩
  have hsqrt : (1627 : ℝ) / 100 < Real.sqrt (12 ^ 2 + 11 ^ 2) := by
    rw [show ((12 : ℝ) ^ 2 + 11 ^ 2) = 265 by norm_num,
      show (265 : ℝ) = ((265 : ℕ) : ℝ) by norm_num]
    rw [Real.lt_sqrt (by norm_num)]
    norm_num
  have hmr : (m : ℝ) ≤ 1627 := by exact_mod_cast hm
  rw [hd]
  linarith

/-- Witness for C2: `mainWorld` is fully bordered by walls and `(3.5, 3.5)`
is strictly inside the open cell `(3, 3)`. -/
theorem cast_ray_distance_lt_diagonal_witness :
    ∃ x y d : ℝ, cast_ray_at_angle mainWorld (7 / 2) (7 / 2) 0 1640 =
        some (x, y, d) ∧ d < Real.sqrt (12 ^ 2 + 11 ^ 2) + 1 / 100 :=
  cast_ray_distance_lt_diagonal mainWorld (7 / 2) (7 / 2) 0 (by decide)
    ⟨⟨3, by norm_num⟩, ⟨3, by norm_num⟩, by decide, by norm_num, by norm_num,
      by norm_num, by norm_num⟩

/-- C3: `check_collision` returns `false` whenever either coordinate is
outside `[0, 12) × [0, 11)`, and for in-bounds coordinates returns `true`
exactly when the grid cell is non-zero (it is a pure function, so there are
no side effects to model). -/
theorem check_collision_bounds (world : World) :
    (∀ x y : ℤ, (x < 0 ∨ 12 ≤ x ∨ y < 0 ∨ 11 ≤ y) →
      check_collision world x y = false) ∧
    ∀ (i : Fin 12) (j : Fin 11),
      check_collision world (i.val : ℤ) (j.val : ℤ) = decide (world j i ≠ 0) := by
  constructor
  · intro x y h
    unfold check_collision
    split_ifs with hx hy
    · exact absurd h (by omega)
    · rfl
    · rfl
  · intro i j
    unfold check_collision
    rw [dif_pos ⟨Int.natCast_nonneg _, by exact_mod_cast i.isLt⟩,
      dif_pos ⟨Int.natCast_nonneg _, by exact_mod_cast j.isLt⟩]
    simp only [Int.toNat_natCast, Fin.eta]
    by_cases h : world j i = 0
    · simp [h]
    · simp [h]

/-- Witness for C3: an out-of-bounds query and an in-bounds query on the
grid of `main`. -/
theorem check_collision_bounds_witness :
    check_collision mainWorld (-1) 5 = false ∧
    check_collision mainWorld 3 3 = decide (mainWorld 3 3 ≠ 0) :=
  ⟨(check_collision_bounds mainWorld).1 (-1) 5 (Or.inl (by norm_num)),
    (check_collision_bounds mainWorld).2 ⟨3, by norm_num⟩ ⟨3, by norm_num⟩⟩

/-- C4: the corrected distance equals the raw distance multiplied by
`cos (pov - ray_angle)`, and for a ray exactly along the viewing direction
(`ray_angle = pov`) it equals the raw distance. -/
theorem corrected_distance_cos_and_center (pov a d : ℝ) :
    corrected_distance pov a d = d * Real.cos (pov - a) ∧
    corrected_distance pov pov d = d := by
  refine ⟨rfl, ?_⟩
  unfold corrected_distance
  rw [sub_self, Real.cos_zero, mul_one]

/-- Counterexample to C5: the source computes
`wall_height = (screen_height / corrected_distance) * 1.5` with no clamping:
at corrected distance `1/100000` (below the claimed `0.001` threshold) the
height is `144000000`, not the value `1440000` a clamp at `0.001` would
give. -/
theorem wall_height_no_clamp_cex :
    wall_height (1 / 100000) = 144000000 ∧
    wall_height (1 / 100000) ≠ 960 / max (1 / 100000 : ℝ) (1 / 1000) * 1.5 := by
  constructor
  · unfold wall_height
    norm_num
  · unfold wall_height
    rw [max_eq_right (by norm_num : (1 / 100000 : ℝ) ≤ 1 / 1000)]
    norm_num

/-- C5 amended: no clamping occurs before the division — `wall_height` takes
arbitrarily large values on distances below any positive threshold
(here below `0.001`), which a clamp to `≥ 0.001` would make impossible. -/
theorem wall_height_unbounded (B : ℝ) :
    ∃ cd : ℝ, 0 < cd ∧ cd < 1 / 1000 ∧ B < wall_height cd := by
  refine ⟨1 / (2000 * (1 + |B|)), by positivity, ?_, ?_⟩
  · rw [div_lt_div_iff₀ (by positivity) (by norm_num)]
    nlinarith [abs_nonneg B]
  · unfold wall_height
    have hrw : (960 : ℝ) / (1 / (2000 * (1 + |B|))) = 960 * (2000 * (1 + |B|)) := by
      field_simp
    rw [hrw]
    nlinarith [abs_nonneg B, le_abs_self B]

/-- Counterexample to C6: a ray that never meets a wall (here: a grid with
no walls at all) does not return a sentinel `1000.0`; `cast_ray` returns
the accumulated distance at which the position left the bounding box
(`0.5`, when starting at `x = 11.5` heading in `+x`). -/
theorem cast_ray_no_sentinel_cex :
    cast_ray_at_angle openWorld (23 / 2) (1 / 2) 0 100 =
        some (12, 1 / 2, 1 / 2) ∧ (1 / 2 : ℝ) ≠ 1000 := by
  constructor
  · unfold cast_ray_at_angle cast_ray
    rw [Real.cos_zero, Real.sin_zero]
    have key := castRayAux_int_scaled (α := ℝ) openWorld 1150 50 100 0 100 0
    rw [show castRayAuxZ openWorld 1150 50 100 0 100 0 = some (120000, 5000, 50)
      by decide] at key
    simp only [Option.map_some'] at key
    norm_num at key
    exact key
  · norm_num

/-- C6 amended: `cast_ray` has no iteration cap and no sentinel; the
bounding-box test alone guarantees termination for any grid (bordered or
not) from inside the box, within 1628 fixed steps, returning the
accumulated distance of the terminating step. -/
theorem cast_ray_no_cap_terminates (world : World) (px py a : ℝ)
    (hpx0 : 0 < px) (hpx1 : px < 12) (hpy0 : 0 < py) (hpy1 : py < 11) :
    ∃ (x y d : ℝ) (m : ℕ),
      cast_ray_at_angle world px py a 1640 = some (x, y, d) ∧
      d = ((m : ℝ) + 1) / 100 ∧ m ≤ 1627 :=
  cast_ray_hits_inBox world px py (Real.cos a) (Real.sin a)
    (Real.cos_sq_add_sin_sq a) hpx0 hpx1 hpy0 hpy1

/-- Witness for the amended C6, on the wall-less grid. -/
theorem cast_ray_no_cap_terminates_witness :
    ∃ (x y d : ℝ) (m : ℕ),
      cast_ray_at_angle openWorld (1 / 2) (1 / 2) 0 1640 = some (x, y, d) ∧
      d = ((m : ℝ) + 1) / 100 ∧ m ≤ 1627 :=
  cast_ray_no_cap_terminates openWorld (1 / 2) (1 / 2) 0 (by norm_num)
    (by norm_num) (by norm_num) (by norm_num)

/-- Counterexample to C7: the frame update performs no angle wrapping —
rotating right 72 times by 5° does not return the stored `pov` to its
original value (it adds exactly `2π`). -/
theorem rotate_right_72_cex :
    rotate_right^[72] (Real.pi / 2) ≠ Real.pi / 2 := by
  rw [rotate_right_iterate]
  have h2 : ((72 : ℕ) : ℝ) * (5 * (Real.pi / 180)) = 2 * Real.pi := by
    push_cast
    ring
  rw [h2]
  intro h
  have hz : 2 * Real.pi = 0 := by linarith
  have := Real.pi_pos
  linarith

/-- C7 amended: `on_draw` never normalizes `pov`; each rotate step changes
it by exactly `±5°` in radians, so 72 right-rotations add exactly `2π` to
the stored value — the stored angle does not return to its original value,
although every trigonometric function of it (hence the rendering) does. -/
theorem rotate_right_72_adds_two_pi (pov : ℝ) :
    rotate_right^[72] pov = pov + 2 * Real.pi ∧
    Real.cos (rotate_right^[72] pov) = Real.cos pov ∧
    Real.sin (rotate_right^[72] pov) = Real.sin pov := by
  have h : rotate_right^[72] pov = pov + 2 * Real.pi := by
    rw [rotate_right_iterate]
    push_cast
    ring
  exact ⟨h, by rw [h, Real.cos_add_two_pi], by rw [h, Real.sin_add_two_pi]⟩

/-- C8: the wall-rendering loop casts the ray for column `i` at angle
`pov - fov/2 + (fov/num_rays) * i` and produces a slice spanning screen-x
from `i * slice_width` to `(i+1) * slice_width` with
`slice_width = screen_width / num_rays`: `column_rect` agrees with the
spec-side composition `column_rect_spec`, and its x-extent is
`[4i, 4(i+1)]`. -/
theorem column_rect_matches_spec (world : World) (px py pov fov : ℝ)
    (fuel i : ℕ) :
    column_rect world px py pov fov fuel i =
        column_rect_spec world px py pov fov fuel i ∧
    (column_rect world px py pov fov fuel i).1.1 = i * (1280 / 320) ∧
    (column_rect world px py pov fov fuel i).2.1 = (i + 1) * (1280 / 320) :=
  ⟨rfl, rfl, rfl⟩

/-- C9: the projected slice height `wall_bottom - wall_top` is strictly
antitone in the (corrected) distance, for distances above the threshold
`0.001`. -/
theorem projection_height_antitone (d1 d2 : ℝ) (h1 : 1 / 1000 < d1)
    (h2 : d1 < d2) :
    wall_bottom d2 - wall_top d2 < wall_bottom d1 - wall_top d1 := by
  unfold wall_bottom wall_top wall_height
  have hd1 : (0 : ℝ) < d1 := by linarith
  have hd2 : (0 : ℝ) < d2 := by linarith
  have h : 960 / d2 < 960 / d1 := by
    apply div_lt_div_of_pos_left (by norm_num) hd1 h2
  linarith

/-- Witness for C9 at distances `1` and `2`. -/
theorem projection_height_antitone_witness :
    wall_bottom 2 - wall_top 2 < wall_bottom 1 - wall_top 1 :=
  projection_height_antitone 1 2 (by norm_num) (by norm_num)

/-- C10: the key handlers mutate only `keys_pressed` — `on_key_down`
inserts the key and `on_key_up` removes it, while `world`, `pov`, `fov`,
`player_x` and `player_y` are unchanged by both, and a `None` key code
leaves the state untouched. -/
theorem key_handlers_touch_only_keys (s : MyWindowHandler) (k : ℕ) :
    (on_key_down s (some k)).world = s.world ∧
    (on_key_down s (some k)).pov = s.pov ∧
    (on_key_down s (some k)).fov = s.fov ∧
    (on_key_down s (some k)).player_x = s.player_x ∧
    (on_key_down s (some k)).player_y = s.player_y ∧
    (on_key_down s (some k)).keys_pressed = insert k s.keys_pressed ∧
    (on_key_up s (some k)).world = s.world ∧
    (on_key_up s (some k)).pov = s.pov ∧
    (on_key_up s (some k)).fov = s.fov ∧
    (on_key_up s (some k)).player_x = s.player_x ∧
    (on_key_up s (some k)).player_y = s.player_y ∧
    (on_key_up s (some k)).keys_pressed = s.keys_pressed.erase k ∧
    on_key_down s none = s ∧ on_key_up s none = s :=
  ⟨rfl, rfl, rfl, rfl, rfl, rfl, rfl, rfl, rfl, rfl, rfl, rfl, rfl, rfl⟩
